import Mathlib

/-!
Ping: an ICMP echo client (`main.go`)

A shallow embedding of the checksum routine `checkSum`, of the request
encoding performed in `main`, and of the body of the probe loop, followed by
the properties established about them.

Conventions of the embedding:
* a Go `byte` is a `Fin 256`; `uint16` and `uint32` values are natural numbers
  with the reduction modulo `2^16` / `2^32` written at every operation that
  can leave the range;
* a slice is a `List Byte`; an index expression `data[k]` is `data[k]?` in the
  `Option` monad, `none` standing for the run-time panic of an index out of
  range;
* the network and the clock are an explicit per-probe environment value;
* the largest slice length that the Go runtime grants is a parameter
  `maxAlloc` of the functions that allocate.
-/

namespace Ping

/-- A Go `byte`. -/
abbrev Byte := Fin 256

/-- The conversion `byte(x)` of an unsigned integer: the low eight bits. -/
def toByte (n : Nat) : Byte := ⟨n % 256, Nat.mod_lt n (by decide)⟩

/-- Package variable `typ uint8 = 8` (echo request). -/
def typ : Nat := 8

/-- Package variable `code uint8 = 0`. -/
def code : Nat := 0

/-- The struct `ICMP`: `Type` (here `Typ`, the source's name being reserved) and
`Code` are `uint8`, the other fields `uint16`. -/
structure ICMP where
  Typ : Nat
  Code : Nat
  CheckSum : Nat
  ID : Nat
  SequenceNum : Nat
deriving Repr, DecidableEq

/-! ## `checkSum` -/

/-- The first loop of `checkSum`:
`for length > 1 { sum += uint32(data[index])<<8 + uint32(data[index+1]); length -= 2; index += 2 }`.
The state is `(length, index, sum)`; the result is the state on exit. -/
def pairLoop (data : List Byte) : Nat → Nat → Nat → Option (Nat × Nat × Nat)
  | length + 2, index, sum => do
    let hi ← data[index]?
    let lo ← data[index + 1]?
    pairLoop data length (index + 2)
      ((sum + ((hi.val <<< 8) % 2 ^ 32 + lo.val) % 2 ^ 32) % 2 ^ 32)
  | length, index, sum => some (length, index, sum)

/-- The second loop of `checkSum`:
`hi := sum >> 16; for hi != 0 { sum = hi + uint32(uint16(sum)); hi = sum >> 16 }`,
returning the final `sum`. -/
def foldLoop (sum : Nat) : Nat :=
  if h : sum >>> 16 ≠ 0 then
    foldLoop ((sum >>> 16 + sum % 2 ^ 16) % 2 ^ 32)
  else sum
termination_by sum
decreasing_by
  have hshift : sum >>> 16 = sum / 65536 := by simp [Nat.shiftRight_eq_div_pow]
  rw [hshift] at h ⊢
  have hmod := Nat.mod_le (sum / 65536 + sum % 2 ^ 16) (2 ^ 32)
  omega

/-- The step after the first loop of `checkSum`:
`if length == 1 { sum += uint32(data[index]) }`, returning `sum`. -/
def oddByte (data : List Byte) (length index sum : Nat) : Option Nat :=
  if length = 1 then do
    let b ← data[index]?
    pure ((sum + b.val) % 2 ^ 32)
  else pure sum

/-- The function `checkSum(data []byte) uint16`. `^sum` on a `uint32` is
`0xFFFFFFFF - sum`, and `uint16(_)` keeps the low sixteen bits. -/
def checkSum (data : List Byte) : Option Nat := do
  let (length, index, sum) ← pairLoop data data.length 0 0
  let sum ← oddByte data length index sum
  let sum := foldLoop sum
  pure ((0xFFFFFFFF - sum) % 2 ^ 16)

/-- The exact (unreduced) value that the two summing steps of `checkSum` add
up: every leading pair of bytes as a big-endian word, and a final unpaired
byte as it stands. -/
def accSum : List Byte → Nat
  | hi :: lo :: rest => (hi.val * 256 + lo.val) + accSum rest
  | [b] => b.val
  | [] => 0

/-- End-around-carry reduction of a natural number to sixteen bits: `0` for
`0`, and otherwise the representative of `s` modulo `65535` in `1..65535`. -/
def onesFold (s : Nat) : Nat := if s = 0 then 0 else (s - 1) % 65535 + 1

/-- The big-endian 16-bit words of a buffer as RFC 1071 reads them: a trailing
odd byte is the high-order byte of a last word whose low byte is zero. -/
def wordsPadded : List Byte → List Nat
  | hi :: lo :: rest => (hi.val * 256 + lo.val) :: wordsPadded rest
  | [b] => [b.val * 256]
  | [] => []

/-- The Internet checksum in the words of the specification (RFC 1071): the
sixteen-bit complement of the ones'-complement sum of the zero-padded
big-endian words of the buffer. -/
def rfc1071 (data : List Byte) : Nat := 0xFFFF - onesFold (wordsPadded data).sum

/-! ## Request encoding in `main` -/

/-- The call `binary.Write(&buffer, binary.BigEndian, icmp)` on an empty
buffer: the fields in declaration order, the sixteen-bit ones high byte
first. -/
def binaryWrite (icmp : ICMP) : List Byte :=
  [toByte icmp.Typ, toByte icmp.Code,
   toByte (icmp.CheckSum >>> 8), toByte icmp.CheckSum,
   toByte (icmp.ID >>> 8), toByte icmp.ID,
   toByte (icmp.SequenceNum >>> 8), toByte icmp.SequenceNum]

/-- The builtin `make([]byte, n)`: `n` zero bytes; a panic
(`makeslice: len out of range`) for negative `n` and for `n` above `maxAlloc`,
the largest slice length the Go runtime grants. `maxAlloc` belongs to the
runtime and the platform, not to this repository (`2^48` on 64-bit Linux), and
is a parameter of the embedding. -/
def make (maxAlloc : Nat) (n : Int) : Option (List Byte) :=
  if n < 0 ∨ (maxAlloc : Int) < n then none else some (List.replicate n.toNat 0)

/-- The call `buffer.Write(data)`: `data` is appended to the contents; a panic
(`bytes.ErrTooLarge`) when the grown buffer is longer than the runtime
grants. -/
def bufferWrite (maxAlloc : Nat) (buffer data : List Byte) : Option (List Byte) :=
  if maxAlloc < buffer.length + data.length then none else some (buffer ++ data)

/-- The assignment `data[k] = v`, a panic when `k` is out of range. -/
def setIndex (data : List Byte) (k : Nat) (v : Byte) : Option (List Byte) :=
  if k < data.length then some (data.set k v) else none

/-- Lines 56-76 of `main`: the bytes handed to `conn.Write` for loop index `i`
with the package variable `size`. The conversion `uint16(i)` is `i % 2^16`. -/
def buildPacket (maxAlloc : Nat) (size : Int) (i : Nat) : Option (List Byte) := do
  let icmp : ICMP :=
    { Typ := typ, Code := code, CheckSum := 0 % 2 ^ 16,
      ID := i % 2 ^ 16, SequenceNum := i % 2 ^ 16 }
  let buffer := binaryWrite icmp
  let data ← make maxAlloc size
  let data ← bufferWrite maxAlloc buffer data
  let sum ← checkSum data
  let data ← setIndex data 2 (toByte (sum >>> 8))
  let data ← setIndex data 3 (toByte sum)
  pure data

/-! ## The probe loop of `main` -/

/-- What `conn.Write(data)` returned: `err == nil` or `err != nil`. -/
inductive WriteOutcome where
  | ok
  | err
deriving Repr, DecidableEq

/-- What `conn.Read(buf)` returned: the bytes of the datagram delivered with
`err == nil`, or `err != nil` (deadline exceeded or another failure). -/
inductive ReadOutcome where
  | ok (packet : List Byte)
  | err
deriving Repr, DecidableEq

/-- The environment of one iteration: the outcome of the write, the outcome of
the read (used only when the write succeeded), and the value of
`time.Since(startTime).Milliseconds()` at the print. -/
structure ProbeEnv where
  write : WriteOutcome
  read : ReadOutcome
  elapsed : Int
deriving Repr, DecidableEq

/-- The observable actions of an iteration, in program order. -/
inductive Event where
  | write (data : List Byte)
  | read
  | logErr
  | reply (a b c d : Byte) (bytes : Int) (millis : Int) (ttl : Byte)
  | sleep
deriving Repr, DecidableEq

/-- The effect of a successful `conn.Read(buf)` delivering `packet`: the count
returned and the buffer afterwards (the length of `buf` is unchanged). -/
def connRead (buf packet : List Byte) : Int × List Byte :=
  let n := min packet.length buf.length
  ((n : Int), packet.take n ++ buf.drop n)

/-- One iteration of the loop at lines 54-101, for loop index `i`. -/
def loopBody (maxAlloc : Nat) (size : Int) (i : Nat) (env : ProbeEnv) :
    Option (List Event) := do
  let data ← buildPacket maxAlloc size i
  match env.write with
  | .err => pure [.write data, .logErr]
  | .ok =>
    let buf ← make maxAlloc 1024
    match env.read with
    | .err => pure [.write data, .read, .logErr]
    | .ok packet =>
      let (n, buf) := connRead buf packet
      let a ← buf[12]?
      let b ← buf[13]?
      let c ← buf[14]?
      let d ← buf[15]?
      let ttl ← buf[8]?
      pure [.write data, .read, .reply a b c d (n - 28) env.elapsed ttl, .sleep]

/-- The loop `for i := 0; i < count; i++ { ... }` entered with the given `i`;
`env k` is the environment met by the iteration of index `k`. -/
def mainLoop (maxAlloc : Nat) (size count : Int) (env : Nat → ProbeEnv) (i : Nat) :
    Option (List Event) :=
  if (i : Int) < count then do
    let events ← loopBody maxAlloc size i (env i)
    let rest ← mainLoop maxAlloc size count env (i + 1)
    pure (events ++ rest)
  else pure []
termination_by (count - i).toNat
decreasing_by omega

/-! ## Iteration counts and observations on traces -/

/-- The first loop of `checkSum` with the same guard, the same reads and the
same state update as `pairLoop`, returning how many times the body ran. -/
def pairLoopSteps (data : List Byte) : Nat → Nat → Nat → Option Nat
  | length + 2, index, sum => do
    let hi ← data[index]?
    let lo ← data[index + 1]?
    let n ← pairLoopSteps data length (index + 2)
      ((sum + ((hi.val <<< 8) % 2 ^ 32 + lo.val) % 2 ^ 32) % 2 ^ 32)
    pure (n + 1)
  | _, _, _ => some 0

/-- One execution of the body of the second loop of `checkSum`:
`sum = hi + uint32(uint16(sum))` with `hi = sum >> 16`. -/
def foldBody (sum : Nat) : Nat := (sum >>> 16 + sum % 2 ^ 16) % 2 ^ 32

/-- The second loop of `checkSum` with the same guard and the same update as
`foldLoop`, returning how many times the body ran. -/
def foldLoopSteps (sum : Nat) : Nat :=
  if h : sum >>> 16 ≠ 0 then
    foldLoopSteps ((sum >>> 16 + sum % 2 ^ 16) % 2 ^ 32) + 1
  else 0
termination_by sum
decreasing_by
  have hshift : sum >>> 16 = sum / 65536 := by simp [Nat.shiftRight_eq_div_pow]
  rw [hshift] at h ⊢
  have hmod := Nat.mod_le (sum / 65536 + sum % 2 ^ 16) (2 ^ 32)
  omega

/-- The buffers of the `conn.Write` calls of a trace, in order. -/
def writesOf : List Event → List (List Byte)
  | [] => []
  | .write data :: rest => data :: writesOf rest
  | _ :: rest => writesOf rest

/-- An outcome record: a reply line or a logged error. -/
def isRecord : Event → Bool
  | .reply _ _ _ _ _ _ _ => true
  | .logErr => true
  | _ => false

/-- A `conn.Read` call. -/
def isRead : Event → Bool
  | .read => true
  | _ => false

/-- A `time.Sleep(time.Second)` call. -/
def isSleep : Event → Bool
  | .sleep => true
  | _ => false

/-- A logged error. -/
def isLogErr : Event → Bool
  | .logErr => true
  | _ => false

/-- The iteration meets a successful write followed by a successful read. -/
def succeeds (env : ProbeEnv) : Bool :=
  match env.write, env.read with
  | .ok, .ok _ => true
  | _, _ => false

/-- The write of the iteration returns `err == nil`. -/
def writeOk (env : ProbeEnv) : Bool :=
  match env.write with
  | .ok => true
  | .err => false

set_option maxRecDepth 20000

/-! ## Lemmas -/

theorem foldLoop_small (x : Nat) (h : x < 65536) : foldLoop x = x := by
  rw [foldLoop]
  have hs : x >>> 16 = 0 := by
    rw [Nat.shiftRight_eq_div_pow]
    exact Nat.div_eq_of_lt (by norm_num; exact h)
  simp [hs]

theorem foldLoop_step (x : Nat) (h : 65536 ≤ x) :
    foldLoop x = foldLoop ((x / 65536 + x % 65536) % 4294967296) := by
  conv_lhs => rw [foldLoop]
  have hs : x >>> 16 = x / 65536 := by simp [Nat.shiftRight_eq_div_pow]
  have hne : x / 65536 ≠ 0 := by omega
  simp [hs, hne]

theorem foldLoop_eq_onesFold (x : Nat) (h : x < 4294967296) :
    foldLoop x = onesFold x := by
  unfold onesFold
  by_cases h1 : x < 65536
  · rw [foldLoop_small x h1]
    split <;> omega
  · rw [foldLoop_step x (by omega)]
    have hy : (x / 65536 + x % 65536) % 4294967296 = x / 65536 + x % 65536 :=
      Nat.mod_eq_of_lt (by omega)
    rw [hy]
    by_cases h2 : x / 65536 + x % 65536 < 65536
    · rw [foldLoop_small _ h2]
      split <;> omega
    · rw [foldLoop_step _ (by omega)]
      have hz : ((x / 65536 + x % 65536) / 65536 + (x / 65536 + x % 65536) % 65536)
          % 4294967296
          = (x / 65536 + x % 65536) / 65536 + (x / 65536 + x % 65536) % 65536 :=
        Nat.mod_eq_of_lt (by omega)
      rw [hz, foldLoop_small _ (by omega)]
      split <;> omega

theorem onesFold_le (s : Nat) : onesFold s ≤ 65535 := by
  unfold onesFold
  split <;> omega

theorem getElem?_append_add (pre suf : List Byte) (k : Nat) :
    (pre ++ suf)[pre.length + k]? = suf[k]? := by
  induction pre with
  | nil => simp
  | cons x xs ih =>
    have hk : (x :: xs).length + k = (xs.length + k) + 1 := by
      simp only [List.length_cons]; omega
    rw [hk, List.cons_append, List.getElem?_cons_succ]
    exact ih

theorem pairLoop_oddByte (suf : List Byte) :
    ∀ (pre : List Byte) (sum : Nat), sum < 4294967296 →
      ∃ index s, pairLoop (pre ++ suf) suf.length pre.length sum
          = some (suf.length % 2, index, s) ∧
        oddByte (pre ++ suf) (suf.length % 2) index s
          = some ((sum + accSum suf) % 4294967296) := by
  induction suf using accSum.induct with
  | case1 hi lo rest ih =>
    intro pre sum hsum
    have h0 : (pre ++ hi :: lo :: rest)[pre.length]? = some hi := by
      have h := getElem?_append_add pre (hi :: lo :: rest) 0
      simpa using h
    have h1 : (pre ++ hi :: lo :: rest)[pre.length + 1]? = some lo := by
      have h := getElem?_append_add pre (hi :: lo :: rest) 1
      simpa using h
    obtain ⟨index, s, hp, ho⟩ := ih (pre ++ [hi, lo])
      ((sum + ((hi.val <<< 8) % 2 ^ 32 + lo.val) % 2 ^ 32) % 2 ^ 32)
      (Nat.mod_lt _ (by norm_num))
    have hdata : pre ++ [hi, lo] ++ rest = pre ++ hi :: lo :: rest := by simp
    have hlen : (pre ++ [hi, lo]).length = pre.length + 2 := by simp
    rw [hdata, hlen] at hp
    rw [hdata] at ho
    refine ⟨index, s, ?_, ?_⟩
    · simp only [List.length_cons, pairLoop, h0, h1, Option.bind_eq_bind, Option.some_bind]
      rw [hp]
      congr 2
      omega
    · have hmod : (rest.length + 1 + 1) % 2 = rest.length % 2 := by omega
      simp only [List.length_cons, hmod]
      rw [ho]
      congr 1
      simp only [accSum, Nat.shiftLeft_eq]
      omega
  | case2 b =>
    intro pre sum _
    refine ⟨pre.length, sum, ?_, ?_⟩
    · simp [pairLoop]
    · simp [oddByte, accSum]
  | case3 =>
    intro pre sum hsum
    refine ⟨pre.length, sum, ?_, ?_⟩
    · simp [pairLoop]
    · simp [oddByte, accSum]
      omega

/-- The value of `checkSum` on every buffer: it returns, and the result is the
sixteen-bit complement of the folded thirty-two-bit accumulator. -/
theorem checkSum_eq (data : List Byte) :
    checkSum data = some (0xFFFF - onesFold (accSum data % 4294967296)) := by
  obtain ⟨index, s, hp, ho⟩ := pairLoop_oddByte data [] 0 (by norm_num)
  simp only [List.nil_append, List.length_nil, Nat.zero_add] at hp ho
  have hf := foldLoop_eq_onesFold (accSum data % 4294967296) (Nat.mod_lt _ (by norm_num))
  have hle := onesFold_le (accSum data % 4294967296)
  simp only [checkSum, hp, ho, hf, Option.bind_eq_bind, Option.some_bind, Option.pure_def]
  congr 1
  omega

theorem accSum_append_even (b t : List Byte) (h : b.length % 2 = 0) :
    accSum (b ++ t) = accSum b + accSum t := by
  induction b using accSum.induct with
  | case1 hi lo rest ih =>
    have hr : rest.length % 2 = 0 := by
      simp only [List.length_cons] at h; omega
    simp only [List.cons_append, accSum, List.append_eq, ih hr]
    omega
  | case2 b => simp at h
  | case3 => simp [accSum]

theorem wordsPadded_append_even (b t : List Byte) (h : b.length % 2 = 0) :
    (wordsPadded (b ++ t)).sum = (wordsPadded b).sum + (wordsPadded t).sum := by
  induction b using accSum.induct with
  | case1 hi lo rest ih =>
    have hr : rest.length % 2 = 0 := by
      simp only [List.length_cons] at h; omega
    simp only [List.cons_append, wordsPadded, List.append_eq, List.sum_cons, ih hr]
    omega
  | case2 b => simp at h
  | case3 => simp [wordsPadded]

theorem accSum_eq_wordsPadded_sum (b : List Byte) (h : b.length % 2 = 0) :
    accSum b = (wordsPadded b).sum := by
  induction b using accSum.induct with
  | case1 hi lo rest ih =>
    have hr : rest.length % 2 = 0 := by
      simp only [List.length_cons] at h; omega
    simp only [accSum, wordsPadded, List.sum_cons, ih hr]
  | case2 b => simp at h
  | case3 => simp [accSum, wordsPadded]

theorem accSum_le (b : List Byte) : 2 * accSum b ≤ 65535 * b.length := by
  induction b using accSum.induct with
  | case1 hi lo rest ih =>
    have h1 := hi.isLt
    have h2 := lo.isLt
    simp only [accSum, List.length_cons]
    omega
  | case2 b =>
    have h1 := b.isLt
    simp only [accSum, List.length_cons, List.length_nil]
    omega
  | case3 => simp [accSum]

/-- Writing the complement of the folded accumulator back as one more word
brings the folded accumulator to `0xFFFF`, also when the accumulator had
wrapped: the new accumulator does not wrap again. -/
theorem onesFold_add_complement (a : Nat) :
    onesFold ((a + (0xFFFF - onesFold (a % 4294967296))) % 4294967296) = 65535 := by
  have hm : a % 4294967296 < 4294967296 := Nat.mod_lt _ (by norm_num)
  have hsplit : (a + (0xFFFF - onesFold (a % 4294967296))) % 4294967296
      = (a % 4294967296 + (0xFFFF - onesFold (a % 4294967296))) % 4294967296 := by
    omega
  rw [hsplit]
  generalize a % 4294967296 = m at hm
  unfold onesFold
  by_cases h0 : m = 0
  · subst h0
    decide
  · simp only [h0, if_false]
    have hq : (m - 1) / 65535 ≤ 65536 := by omega
    have hdecomp : m - 1 = 65535 * ((m - 1) / 65535) + (m - 1) % 65535 :=
      (Nat.div_add_mod (m - 1) 65535).symm
    have hr : (m - 1) % 65535 < 65535 := Nat.mod_lt _ (by norm_num)
    generalize (m - 1) / 65535 = q at hq hdecomp
    generalize (m - 1) % 65535 = r at hdecomp hr
    have hval : m + (65535 - (r + 1)) = 65535 * (q + 1) := by omega
    rw [hval]
    have hlt : 65535 * (q + 1) < 4294967296 := by omega
    rw [Nat.mod_eq_of_lt hlt]
    have hne : 65535 * (q + 1) ≠ 0 := by omega
    simp only [hne, if_false]
    have hpred : 65535 * (q + 1) - 1 = 65535 * q + 65534 := by omega
    rw [hpred]
    omega

theorem word_of_bytes (c : Nat) (h : c < 65536) :
    (toByte (c >>> 8)).val * 256 + (toByte c).val = c := by
  simp only [toByte, Nat.shiftRight_eq_div_pow]
  omega

theorem accSum_replicate_ff (n : Nat) :
    accSum (List.replicate (2 * n) (255 : Byte)) = 65535 * n := by
  induction n with
  | zero => simp [accSum]
  | succ k ih =>
    have h : 2 * (k + 1) = 2 * k + 1 + 1 := by omega
    rw [h, List.replicate_succ, List.replicate_succ]
    simp only [accSum, ih]
    have hv : ((255 : Byte) : Nat) = 255 := rfl
    omega

theorem wordsPadded_replicate_ff (n : Nat) :
    (wordsPadded (List.replicate (2 * n) (255 : Byte))).sum = 65535 * n := by
  rw [← accSum_eq_wordsPadded_sum _ (by simp), accSum_replicate_ff]

theorem rfc1071_replicate_ff (n : Nat) :
    rfc1071 (List.replicate (2 * n) (255 : Byte)) = 0xFFFF - onesFold (65535 * n) := by
  unfold rfc1071
  rw [wordsPadded_replicate_ff]

theorem checkSum_replicate_ff (n : Nat) :
    checkSum (List.replicate (2 * n) (255 : Byte))
      = some (0xFFFF - onesFold (65535 * n % 4294967296)) := by
  rw [checkSum_eq, accSum_replicate_ff]

theorem buildPacket_eq (maxAlloc : Nat) (size : Int) (i : Nat) (hs : 0 ≤ size)
    (hmax : size + 8 ≤ maxAlloc) :
    buildPacket maxAlloc size i = some
      ([8, 0,
        toByte ((0xFFFF - onesFold (accSum
          ([8, 0, 0, 0, toByte ((i % 65536) >>> 8), toByte (i % 65536),
            toByte ((i % 65536) >>> 8), toByte (i % 65536)]
            ++ List.replicate size.toNat 0) % 4294967296)) >>> 8),
        toByte (0xFFFF - onesFold (accSum
          ([8, 0, 0, 0, toByte ((i % 65536) >>> 8), toByte (i % 65536),
            toByte ((i % 65536) >>> 8), toByte (i % 65536)]
            ++ List.replicate size.toNat 0) % 4294967296)),
        toByte ((i % 65536) >>> 8), toByte (i % 65536),
        toByte ((i % 65536) >>> 8), toByte (i % 65536)]
        ++ List.replicate size.toNat 0) := by
  have hneg : ¬ (size < 0 ∨ (maxAlloc : Int) < size) := by omega
  have hfit : ¬ maxAlloc < 8 + size.toNat := by omega
  have h8 : toByte 8 = 8 := rfl
  have h0 : toByte 0 = 0 := rfl
  simp only [buildPacket, make, hneg, if_false, bufferWrite, binaryWrite, typ, code,
    Nat.zero_mod, Nat.zero_shiftRight, h8, h0, Option.bind_eq_bind, Option.some_bind,
    Option.pure_def, checkSum_eq, setIndex, List.length_append, List.length_cons,
    List.length_nil, List.length_replicate, List.length_set, List.cons_append,
    List.nil_append, List.set_cons_succ, List.set_cons_zero, Nat.zero_add, Nat.reduceAdd,
    hfit]
  norm_num

/-- Outside the sizes that the runtime grants, no packet is built. -/
theorem buildPacket_none (maxAlloc : Nat) (size : Int) (i : Nat)
    (h : size < 0 ∨ (maxAlloc : Int) < size + 8) :
    buildPacket maxAlloc size i = none := by
  by_cases hmake : size < 0 ∨ (maxAlloc : Int) < size
  · simp only [buildPacket, make, hmake, if_true, Option.bind_eq_bind, Option.none_bind]
  · have hfit : maxAlloc < 8 + size.toNat := by omega
    simp only [buildPacket, make, hmake, if_false, bufferWrite, binaryWrite,
      Option.bind_eq_bind, Option.some_bind, List.length_cons, List.length_nil,
      List.length_replicate, Nat.zero_add, Nat.reduceAdd, hfit, if_true, Option.none_bind]

/-- A packet is built exactly for the sizes that the runtime grants. -/
theorem buildPacket_isSome (maxAlloc : Nat) (size : Int) (i : Nat) (p : List Byte)
    (h : buildPacket maxAlloc size i = some p) : 0 ≤ size ∧ size + 8 ≤ maxAlloc := by
  by_contra hc
  have hnone := buildPacket_none maxAlloc size i (by omega)
  rw [hnone] at h
  exact Option.noConfusion h

theorem connRead_length (buf packet : List Byte) :
    (connRead buf packet).2.length = buf.length := by
  simp only [connRead, List.length_append, List.length_take, List.length_drop]
  omega

theorem connRead_count (buf packet : List Byte) :
    (connRead buf packet).1 = ((min packet.length buf.length : Nat) : Int) := rfl

theorem getElem?_of_lt (l : List Byte) (k : Nat) (h : k < l.length) :
    ∃ v, l[k]? = some v :=
  ⟨l[k], List.getElem?_eq_getElem h⟩

theorem make_buf (maxAlloc : Nat) (hbuf : 1024 ≤ maxAlloc) :
    make maxAlloc 1024 = some (List.replicate 1024 0) := by
  have h : ¬ ((1024 : Int) < 0 ∨ (maxAlloc : Int) < 1024) := by omega
  simp only [make, h, if_false]
  rfl

/-- The iteration whose write and read both succeed: the events it produces,
given the five bytes that the print reads from the receive buffer. -/
theorem loopBody_read_ok (maxAlloc : Nat) (size : Int) (i : Nat) (packet : List Byte)
    (elapsed : Int) (data : List Byte) (a b c d ttl : Byte) (hbuf : 1024 ≤ maxAlloc)
    (hdata : buildPacket maxAlloc size i = some data)
    (ha : (connRead (List.replicate 1024 0) packet).2[12]? = some a)
    (hb : (connRead (List.replicate 1024 0) packet).2[13]? = some b)
    (hc : (connRead (List.replicate 1024 0) packet).2[14]? = some c)
    (hd : (connRead (List.replicate 1024 0) packet).2[15]? = some d)
    (httl : (connRead (List.replicate 1024 0) packet).2[8]? = some ttl) :
    loopBody maxAlloc size i ⟨.ok, .ok packet, elapsed⟩
      = some [.write data, .read,
          .reply a b c d ((connRead (List.replicate 1024 0) packet).1 - 28) elapsed ttl,
          .sleep] := by
  have hmake : make maxAlloc 1024 = some (List.replicate 1024 0) :=
    make_buf maxAlloc hbuf
  simp only [loopBody, hdata, hmake, Option.bind_eq_bind, Option.some_bind, ha, hb, hc, hd,
    httl, Option.pure_def]

theorem connRead_bytes (packet : List Byte) :
    ∃ a b c d ttl,
      (connRead (List.replicate 1024 0) packet).2[12]? = some a ∧
      (connRead (List.replicate 1024 0) packet).2[13]? = some b ∧
      (connRead (List.replicate 1024 0) packet).2[14]? = some c ∧
      (connRead (List.replicate 1024 0) packet).2[15]? = some d ∧
      (connRead (List.replicate 1024 0) packet).2[8]? = some ttl := by
  have hlen : (connRead (List.replicate 1024 0) packet).2.length = 1024 := by
    rw [connRead_length, List.length_replicate]
  obtain ⟨a, ha⟩ := getElem?_of_lt (connRead (List.replicate 1024 0) packet).2 12
    (by omega)
  obtain ⟨b, hb⟩ := getElem?_of_lt (connRead (List.replicate 1024 0) packet).2 13
    (by omega)
  obtain ⟨c, hc⟩ := getElem?_of_lt (connRead (List.replicate 1024 0) packet).2 14
    (by omega)
  obtain ⟨d, hd⟩ := getElem?_of_lt (connRead (List.replicate 1024 0) packet).2 15
    (by omega)
  obtain ⟨ttl, httl⟩ := getElem?_of_lt (connRead (List.replicate 1024 0) packet).2 8
    (by omega)
  exact ⟨a, b, c, d, ttl, ha, hb, hc, hd, httl⟩

theorem writesOf_append (t rest : List Event) :
    writesOf (t ++ rest) = writesOf t ++ writesOf rest := by
  induction t with
  | nil => rfl
  | cons e es ih =>
    cases e <;> simp [writesOf, ih]

/-- One iteration, for a non-negative payload size: it does not panic, and its
trace starts with the write of the packet built for the index, holds one
outcome record, a read exactly when the write succeeded, and a sleep exactly
when the write and the read succeeded. -/
theorem loopBody_trace (maxAlloc : Nat) (size : Int) (i : Nat) (env : ProbeEnv)
    (hs : 0 ≤ size) (hmax : size + 8 ≤ maxAlloc) (hbuf : 1024 ≤ maxAlloc) :
    ∃ (data : List Byte) (t : List Event),
      buildPacket maxAlloc size i = some data ∧
      loopBody maxAlloc size i env = some t ∧
      t.head? = some (.write data) ∧
      writesOf t = [data] ∧
      t.countP isRecord = 1 ∧
      t.countP isRead = (if writeOk env then 1 else 0) ∧
      t.countP isSleep = (if succeeds env then 1 else 0) ∧
      t.countP isLogErr = (if succeeds env then 0 else 1) ∧
      (succeeds env = true → t.getLast? = some .sleep) := by
  have hdata := buildPacket_eq maxAlloc size i hs hmax
  have hmake : make maxAlloc 1024 = some (List.replicate 1024 0) := make_buf maxAlloc hbuf
  obtain ⟨w, r, elapsed⟩ := env
  cases w with
  | err =>
    refine ⟨_, [.write _, .logErr], hdata, ?_, rfl, rfl, rfl, rfl, ?_, ?_, ?_⟩
    · simp only [loopBody, hdata, Option.bind_eq_bind, Option.some_bind, Option.pure_def]
    · cases r <;> rfl
    · cases r <;> rfl
    · cases r <;> simp [succeeds]
  | ok =>
    cases r with
    | err =>
      refine ⟨_, [.write _, .read, .logErr], hdata, ?_, rfl, rfl, rfl, rfl, rfl, rfl, ?_⟩
      · simp only [loopBody, hdata, hmake, Option.bind_eq_bind, Option.some_bind,
          Option.pure_def]
      · simp [succeeds]
    | ok packet =>
      obtain ⟨a, b, c, d, ttl, ha, hb, hc, hd, httl⟩ := connRead_bytes packet
      exact ⟨_, _, hdata,
        loopBody_read_ok maxAlloc size i packet elapsed _ a b c d ttl hbuf hdata
          ha hb hc hd httl,
        rfl, rfl, rfl, rfl, rfl, rfl, fun _ => rfl⟩

theorem mainLoop_done (maxAlloc : Nat) (size count : Int) (env : Nat → ProbeEnv) (i : Nat)
    (h : ¬ (i : Int) < count) : mainLoop maxAlloc size count env i = some [] := by
  rw [mainLoop]
  simp [h]

theorem mainLoop_next (maxAlloc : Nat) (size count : Int) (env : Nat → ProbeEnv) (i : Nat)
    (h : (i : Int) < count) (t rest : List Event)
    (ht : loopBody maxAlloc size i (env i) = some t)
    (hrest : mainLoop maxAlloc size count env (i + 1) = some rest) :
    mainLoop maxAlloc size count env i = some (t ++ rest) := by
  rw [mainLoop]
  simp [h, ht, hrest]

/-- The loop entered at index `i` with `n` iterations left, for a non-negative
payload size: it runs to the end, and its trace holds the writes of the
packets of the indices `i, i+1, ..., i+n-1` in this order, `n` outcome
records, one read per successful write and one sleep per iteration whose
write and read succeeded. -/
theorem mainLoop_trace (maxAlloc : Nat) (size : Int) (env : Nat → ProbeEnv)
    (hs : 0 ≤ size) (hmax : size + 8 ≤ maxAlloc) (hbuf : 1024 ≤ maxAlloc) :
    ∀ (n i : Nat), ∃ evs : List Event,
      mainLoop maxAlloc size ((i + n : Nat) : Int) env i = some evs ∧
      (writesOf evs).map some = (List.range' i n).map (buildPacket maxAlloc size) ∧
      evs.countP isRecord = n ∧
      evs.countP isRead = (List.range' i n).countP (fun k => writeOk (env k)) ∧
      evs.countP isSleep = (List.range' i n).countP (fun k => succeeds (env k)) ∧
      evs.countP isLogErr + evs.countP isSleep = n := by
  intro n
  induction n with
  | zero =>
    intro i
    exact ⟨[], mainLoop_done maxAlloc size _ env i (by simp), rfl, rfl, rfl, rfl, rfl⟩
  | succ n ih =>
    intro i
    obtain ⟨rest, hrest, hw, hrec, hread, hsleep, hsum⟩ := ih (i + 1)
    obtain ⟨data, t, hdata, ht, _, htw, htrec, htread, htsleep, htlog, _⟩ :=
      loopBody_trace maxAlloc size i (env i) hs hmax hbuf
    have hcount : ((i + 1 + n : Nat) : Int) = ((i + (n + 1) : Nat) : Int) := by
      congr 1; omega
    rw [hcount] at hrest
    have hlt : (i : Int) < ((i + (n + 1) : Nat) : Int) := by omega
    refine ⟨t ++ rest, mainLoop_next maxAlloc size _ env i hlt t rest ht hrest,
      ?_, ?_, ?_, ?_, ?_⟩
    · rw [writesOf_append, htw, List.range'_succ, List.map_cons, hdata, ← hw]
      rfl
    · rw [List.countP_append, htrec, hrec]; omega
    · rw [List.countP_append, htread, hread, List.range'_succ, List.countP_cons]
      omega
    · rw [List.countP_append, htsleep, hsleep, List.range'_succ, List.countP_cons]
      omega
    · rw [List.countP_append, List.countP_append, htsleep, htlog]
      split <;> omega

theorem isRead_iff (e : Event) : isRead e = true ↔ e = .read := by
  cases e <;> simp [isRead]

theorem read_mem_iff (t : List Event) : Event.read ∈ t ↔ 0 < t.countP isRead := by
  rw [List.countP_pos_iff]
  constructor
  · intro h
    exact ⟨.read, h, rfl⟩
  · rintro ⟨e, he, hr⟩
    rw [isRead_iff] at hr
    exact hr ▸ he

theorem foldBody_eq (x : Nat) :
    foldBody x = (x / 65536 + x % 65536) % 4294967296 := by
  simp [foldBody, Nat.shiftRight_eq_div_pow]

theorem foldLoopSteps_small (x : Nat) (h : x < 65536) : foldLoopSteps x = 0 := by
  rw [foldLoopSteps]
  have hs : x >>> 16 = 0 := by
    rw [Nat.shiftRight_eq_div_pow]
    exact Nat.div_eq_of_lt (by norm_num; exact h)
  simp [hs]

theorem foldLoopSteps_step (x : Nat) (h : 65536 ≤ x) :
    foldLoopSteps x = foldLoopSteps (foldBody x) + 1 := by
  conv_lhs => rw [foldLoopSteps]
  have hs : x >>> 16 = x / 65536 := by simp [Nat.shiftRight_eq_div_pow]
  have hne : x / 65536 ≠ 0 := by omega
  simp [hs, hne, foldBody_eq]

theorem foldLoop_step_body (x : Nat) (h : 65536 ≤ x) :
    foldLoop x = foldLoop (foldBody x) := by
  rw [foldLoop_step x h, foldBody_eq]

theorem pairLoop_exit (suf : List Byte) :
    ∀ (pre : List Byte) (sum : Nat),
      ∃ s, pairLoop (pre ++ suf) suf.length pre.length sum
          = some (suf.length % 2, pre.length + 2 * (suf.length / 2), s) ∧
        pairLoopSteps (pre ++ suf) suf.length pre.length sum = some (suf.length / 2) := by
  induction suf using accSum.induct with
  | case1 hi lo rest ih =>
    intro pre sum
    have h0 : (pre ++ hi :: lo :: rest)[pre.length]? = some hi := by
      have h := getElem?_append_add pre (hi :: lo :: rest) 0
      simpa using h
    have h1 : (pre ++ hi :: lo :: rest)[pre.length + 1]? = some lo := by
      have h := getElem?_append_add pre (hi :: lo :: rest) 1
      simpa using h
    obtain ⟨s, hp, hn⟩ := ih (pre ++ [hi, lo])
      ((sum + ((hi.val <<< 8) % 2 ^ 32 + lo.val) % 2 ^ 32) % 2 ^ 32)
    have hdata : pre ++ [hi, lo] ++ rest = pre ++ hi :: lo :: rest := by simp
    have hlen : (pre ++ [hi, lo]).length = pre.length + 2 := by simp
    rw [hdata, hlen] at hp hn
    refine ⟨s, ?_, ?_⟩
    · simp only [List.length_cons, pairLoop, h0, h1, Option.bind_eq_bind, Option.some_bind]
      rw [hp]
      congr 2
      · omega
      · congr 1
        omega
    · simp only [List.length_cons, pairLoopSteps, h0, h1, Option.bind_eq_bind,
        Option.some_bind, hn, Option.pure_def]
      congr 1
      omega
  | case2 b =>
    intro pre sum
    exact ⟨sum, by simp [pairLoop], by simp [pairLoopSteps]⟩
  | case3 =>
    intro pre sum
    exact ⟨sum, by simp [pairLoop], by simp [pairLoopSteps]⟩

theorem accSum_replicate_zero (k : Nat) :
    accSum (List.replicate k (0 : Byte)) = 0 ∧
    accSum (List.replicate (k + 1) (0 : Byte)) = 0 := by
  induction k with
  | zero => exact ⟨rfl, rfl⟩
  | succ n ih =>
    refine ⟨ih.2, ?_⟩
    rw [List.replicate_succ, List.replicate_succ]
    simp only [accSum, ih.1]
    rfl

theorem checkSum_append_zeros (b : List Byte) (k : Nat) (heven : b.length % 2 = 0) :
    checkSum (b ++ List.replicate k 0) = checkSum b := by
  rw [checkSum_eq, checkSum_eq, accSum_append_even b _ heven, (accSum_replicate_zero k).1,
    Nat.add_zero]

theorem accSum_header_payload (hd : List Byte) (n : Nat) (heven : hd.length % 2 = 0) :
    accSum (hd ++ List.replicate n 0) = accSum hd := by
  rw [accSum_append_even hd _ heven, (accSum_replicate_zero n).1, Nat.add_zero]

/-- The packet built by `main`, with the checksum bytes computed from the
eight header bytes alone. -/
theorem buildPacket_eq_header (maxAlloc : Nat) (size : Int) (i : Nat) (hs : 0 ≤ size)
    (hmax : size + 8 ≤ maxAlloc) :
    buildPacket maxAlloc size i = some
      ([8, 0,
        toByte ((0xFFFF - onesFold (accSum
          [8, 0, 0, 0, toByte ((i % 65536) >>> 8), toByte (i % 65536),
            toByte ((i % 65536) >>> 8), toByte (i % 65536)] % 4294967296)) >>> 8),
        toByte (0xFFFF - onesFold (accSum
          [8, 0, 0, 0, toByte ((i % 65536) >>> 8), toByte (i % 65536),
            toByte ((i % 65536) >>> 8), toByte (i % 65536)] % 4294967296)),
        toByte ((i % 65536) >>> 8), toByte (i % 65536),
        toByte ((i % 65536) >>> 8), toByte (i % 65536)]
        ++ List.replicate size.toNat 0) := by
  rw [buildPacket_eq maxAlloc size i hs hmax, accSum_header_payload _ _ (by simp)]

/-- When no packet can be built the iteration panics before its write. -/
theorem loopBody_none (maxAlloc : Nat) (size : Int) (i : Nat) (env : ProbeEnv)
    (h : buildPacket maxAlloc size i = none) : loopBody maxAlloc size i env = none := by
  simp only [loopBody, h, Option.bind_eq_bind, Option.none_bind]

/-- A panic in the iteration of index `i` ends the loop entered at `i`. -/
theorem mainLoop_panic (maxAlloc : Nat) (size count : Int) (env : Nat → ProbeEnv) (i : Nat)
    (h : (i : Int) < count) (ht : loopBody maxAlloc size i (env i) = none) :
    mainLoop maxAlloc size count env i = none := by
  rw [mainLoop]
  simp [h, ht]

/-! ## Properties of the program -/

/-- C1. Checksum validation: for every buffer `d` of at least four bytes whose
bytes 2 and 3 are zero, `checkSum d` returns some `c`, and `checkSum` of `d`
with byte 2 set to `byte(c >> 8)` and byte 3 set to `byte(c)` returns
`0x0000`; the length may be even or odd and the accumulator may wrap. -/
theorem checkSum_validates (d : List Byte) (hlen : 4 ≤ d.length)
    (h2 : d[2]? = some 0) (h3 : d[3]? = some 0) :
    ∃ c, checkSum d = some c ∧
      checkSum ((d.set 2 (toByte (c >>> 8))).set 3 (toByte c)) = some 0 := by
  match d, hlen, h2, h3 with
  | b0 :: b1 :: b2 :: b3 :: rest, _, h2, h3 =>
    simp only [List.getElem?_cons_succ, List.getElem?_cons_zero, Option.some.injEq] at h2 h3
    subst h2 h3
    refine ⟨_, checkSum_eq _, ?_⟩
    simp only [List.set_cons_succ, List.set_cons_zero]
    rw [checkSum_eq]
    have hle := onesFold_le (accSum (b0 :: b1 :: 0 :: 0 :: rest) % 4294967296)
    have hw := word_of_bytes
      (0xFFFF - onesFold (accSum (b0 :: b1 :: 0 :: 0 :: rest) % 4294967296)) (by omega)
    have hacc : accSum (b0 :: b1 :: toByte
          ((0xFFFF - onesFold (accSum (b0 :: b1 :: 0 :: 0 :: rest) % 4294967296)) >>> 8)
        :: toByte (0xFFFF - onesFold (accSum (b0 :: b1 :: 0 :: 0 :: rest) % 4294967296))
        :: rest)
        = accSum (b0 :: b1 :: 0 :: 0 :: rest)
          + (0xFFFF - onesFold (accSum (b0 :: b1 :: 0 :: 0 :: rest) % 4294967296)) := by
      simp only [accSum] at hw ⊢
      simp only [Fin.val_zero] at hw ⊢
      omega
    rw [hacc, onesFold_add_complement]

theorem checkSum_validates_witness :
    4 ≤ ([8, 0, 0, 0, 0, 1, 0, 1, 7] : List Byte).length ∧
    ([8, 0, 0, 0, 0, 1, 0, 1, 7] : List Byte)[2]? = some 0 ∧
    ([8, 0, 0, 0, 0, 1, 0, 1, 7] : List Byte)[3]? = some 0 ∧
    ∃ c, checkSum [8, 0, 0, 0, 0, 1, 0, 1, 7] = some c ∧
      checkSum (([8, 0, 0, 0, 0, 1, 0, 1, 7].set 2 (toByte (c >>> 8))).set 3 (toByte c))
        = some 0 :=
  ⟨by decide, by decide, by decide,
    checkSum_validates [8, 0, 0, 0, 0, 1, 0, 1, 7] (by decide) (by decide) (by decide)⟩

/-- C2, refuted as stated. On the one-byte buffer `[0x01]` the code returns
`0xFFFE`, whereas the RFC 1071 value, which is also what the code returns on
the padded buffer `[0x01, 0x00]`, is `0xFEFF`. On the buffer of `2 * 65538` bytes
`0xFF`, whose word sum exceeds `2^32`, the code returns `1` and RFC 1071
gives `0`. -/
theorem checkSum_rfc1071_counterexample :
    checkSum ([] ++ [1]) = some 0xFFFE ∧
    checkSum ([] ++ [1, 0]) = some 0xFEFF ∧
    rfc1071 [1] = 0xFEFF ∧
    checkSum (List.replicate (2 * 65538) 255) = some 1 ∧
    rfc1071 (List.replicate (2 * 65538) 255) = 0 := by
  refine ⟨?_, ?_, ?_, ?_, ?_⟩
  · rw [checkSum_eq]; decide
  · rw [checkSum_eq]; decide
  · decide
  · exact (checkSum_replicate_ff 65538).trans (by decide)
  · exact (rfc1071_replicate_ff 65538).trans (by decide)

/-- C2, amended. For every even-length buffer `b` whose exact word sum is
below `2^32`, `checkSum` returns the RFC 1071 checksum of `b` and of `b`
followed by one zero byte, and the latter equals `checkSum` of `b` followed by
two zero bytes. A trailing odd byte `x` counts as the low-order byte of a
last word: whenever the word sum of `b` plus `x` is also below `2^32`, the
value on `b ++ [x]` is the RFC 1071 checksum of `b ++ [0x00, x]`. In
particular `checkSum [0x01]` is `0xFFFE`. -/
theorem checkSum_rfc1071_amended (b : List Byte) (x : Byte)
    (heven : b.length % 2 = 0) (hsum : (wordsPadded b).sum < 4294967296) :
    checkSum b = some (rfc1071 b) ∧
    checkSum (b ++ [0]) = some (rfc1071 (b ++ [0])) ∧
    checkSum (b ++ [0]) = checkSum (b ++ [0, 0]) ∧
    ((wordsPadded b).sum + x.val < 4294967296 →
      checkSum (b ++ [x]) = some (rfc1071 (b ++ [0, x]))) ∧
    checkSum [1] = some 0xFFFE := by
  have hacc := accSum_eq_wordsPadded_sum b heven
  have hb : accSum b % 4294967296 = (wordsPadded b).sum := by
    rw [hacc]; exact Nat.mod_eq_of_lt hsum
  refine ⟨?_, ?_, ?_, ?_, ?_⟩
  · rw [checkSum_eq, hb]; rfl
  · rw [checkSum_eq, accSum_append_even b _ heven]
    unfold rfc1071
    rw [wordsPadded_append_even b _ heven]
    simp only [accSum, wordsPadded, Fin.val_zero, List.sum_cons, List.sum_nil,
      Nat.zero_mul, Nat.add_zero, hb]
  · rw [checkSum_eq, checkSum_eq, accSum_append_even b _ heven,
      accSum_append_even b _ heven]
    simp [accSum]
  · intro hx
    have hbx : (accSum b + x.val) % 4294967296 = (wordsPadded b).sum + x.val := by
      rw [hacc]; exact Nat.mod_eq_of_lt hx
    rw [checkSum_eq, accSum_append_even b _ heven]
    unfold rfc1071
    rw [wordsPadded_append_even b _ heven]
    simp only [accSum, wordsPadded, Fin.val_zero, List.sum_cons, List.sum_nil,
      Nat.zero_mul, Nat.zero_add, Nat.add_zero, hbx]
  · rw [checkSum_eq]; decide

theorem checkSum_rfc1071_amended_witness :
    ([8, 0] : List Byte).length % 2 = 0 ∧
    (wordsPadded [8, 0]).sum < 4294967296 ∧
    checkSum [8, 0] = some (rfc1071 [8, 0]) ∧
    checkSum ([8, 0] ++ [0]) = some (rfc1071 ([8, 0] ++ [0])) ∧
    checkSum ([8, 0] ++ [0]) = checkSum ([8, 0] ++ [0, 0]) ∧
    ((wordsPadded [8, 0]).sum + (7 : Byte).val < 4294967296 →
      checkSum ([8, 0] ++ [7]) = some (rfc1071 ([8, 0] ++ [0, 7]))) ∧
    checkSum [1] = some 0xFFFE :=
  ⟨by decide, by decide, checkSum_rfc1071_amended [8, 0] 7 (by decide) (by decide)⟩

/-- C3, refuted as stated. With the allocation limit `2^48` of 64-bit Linux and
the non-negative payload size `9223372036854775807` (`-l` at the largest
`int`), `make([]byte, size)` panics at line 68 and no packet is built; the
same happens at the first size above the limit. -/
theorem buildPacket_encoding_counterexample :
    (0 : Int) ≤ 9223372036854775807 ∧
    make 281474976710656 9223372036854775807 = none ∧
    buildPacket 281474976710656 9223372036854775807 0 = none ∧
    buildPacket 281474976710656 (281474976710656 + 1) 0 = none :=
  ⟨by decide, by decide,
    buildPacket_none 281474976710656 9223372036854775807 0 (by decide),
    buildPacket_none 281474976710656 (281474976710656 + 1) 0 (by decide)⟩

/-- C3, amended. Encoding: for every loop index `i` and every payload size
`size` with `0 ≤ size` and `size + 8 ≤ maxAlloc` (the largest slice length the
runtime grants), `main` builds without failing, and hands to `conn.Write`,
exactly the buffer `[8, 0, c_hi, c_lo, id_hi, id_lo, id_hi, id_lo]` followed
by `size` zero bytes, of `8 + size` bytes in all, where `id_hi, id_lo` is
`i mod 65536` high byte first and `c_hi, c_lo` is, high byte first, the value
of `checkSum` on the same buffer with bytes 2 and 3 zero. -/
theorem buildPacket_encoding (maxAlloc : Nat) (size : Int) (i : Nat) (hs : 0 ≤ size)
    (hmax : size + 8 ≤ maxAlloc) :
    ∃ (c : Nat) (chi clo idhi idlo : Byte),
      idhi.val * 256 + idlo.val = i % 65536 ∧
      checkSum ([8, 0, 0, 0, idhi, idlo, idhi, idlo] ++ List.replicate size.toNat 0)
        = some c ∧
      chi.val * 256 + clo.val = c ∧
      buildPacket maxAlloc size i
        = some ([8, 0, chi, clo, idhi, idlo, idhi, idlo] ++ List.replicate size.toNat 0) ∧
      (([8, 0, chi, clo, idhi, idlo, idhi, idlo]
        ++ List.replicate size.toNat 0).length : Int) = 8 + size := by
  have hle := onesFold_le (accSum
    ([8, 0, 0, 0, toByte ((i % 65536) >>> 8), toByte (i % 65536),
      toByte ((i % 65536) >>> 8), toByte (i % 65536)]
      ++ List.replicate size.toNat 0) % 4294967296)
  refine ⟨_, _, _, toByte ((i % 65536) >>> 8), toByte (i % 65536),
    word_of_bytes (i % 65536) (Nat.mod_lt _ (by norm_num)), checkSum_eq _,
    word_of_bytes _ (by omega), buildPacket_eq maxAlloc size i hs hmax, ?_⟩
  simp only [List.length_append, List.length_cons, List.length_nil, List.length_replicate]
  omega

theorem buildPacket_encoding_witness :
    (0 : Int) ≤ 3 ∧ (3 : Int) + 8 ≤ ((281474976710656 : Nat) : Int) ∧
    ∃ (c : Nat) (chi clo idhi idlo : Byte),
      idhi.val * 256 + idlo.val = 65538 % 65536 ∧
      checkSum ([8, 0, 0, 0, idhi, idlo, idhi, idlo] ++ List.replicate (3 : Int).toNat 0)
        = some c ∧
      chi.val * 256 + clo.val = c ∧
      buildPacket 281474976710656 3 65538
        = some ([8, 0, chi, clo, idhi, idlo, idhi, idlo]
            ++ List.replicate (3 : Int).toNat 0) ∧
      (([8, 0, chi, clo, idhi, idlo, idhi, idlo]
        ++ List.replicate (3 : Int).toNat 0).length : Int) = 8 + 3 :=
  ⟨by decide, by decide, buildPacket_encoding 281474976710656 3 65538 (by decide) (by decide)⟩

/-- C4. Identifier and sequence round trip: for every loop index `v` in
`0..65535` and every payload size, whenever `main` builds the request `p`
(which it does for every size with `0 ≤ size` and `size + 8 ≤ maxAlloc`),
bytes 4-5 and bytes 6-7 of `p` each read, high byte first, as `v`; the
checksum stores at bytes 2-3 leave them unchanged. -/
theorem buildPacket_id_seq (maxAlloc : Nat) (v : Nat) (size : Int) (p : List Byte)
    (hv : v < 65536) (hp : buildPacket maxAlloc size v = some p) :
    (∃ (b4 b5 b6 b7 : Byte),
      p[4]? = some b4 ∧ p[5]? = some b5 ∧ p[6]? = some b6 ∧ p[7]? = some b7 ∧
      b4.val * 256 + b5.val = v ∧ b6.val * 256 + b7.val = v) ∧
    (∀ s : Int, 0 ≤ s → s + 8 ≤ maxAlloc → ∃ q, buildPacket maxAlloc s v = some q) := by
  have hmod : v % 65536 = v := Nat.mod_eq_of_lt hv
  have hw := word_of_bytes (v % 65536) (Nat.mod_lt _ (by norm_num))
  rw [hmod] at hw
  obtain ⟨hs, hmax⟩ := buildPacket_isSome maxAlloc size v p hp
  have hq := buildPacket_eq maxAlloc size v hs hmax
  rw [hp] at hq
  have hpe := Option.some.inj hq
  refine ⟨⟨toByte ((v % 65536) >>> 8), toByte (v % 65536),
    toByte ((v % 65536) >>> 8), toByte (v % 65536), ?_, ?_, ?_, ?_, ?_, ?_⟩, ?_⟩
  · rw [hpe]; simp
  · rw [hpe]; simp
  · rw [hpe]; simp
  · rw [hpe]; simp
  · rw [hmod]; exact hw
  · rw [hmod]; exact hw
  · intro s hs0 hsmax
    exact ⟨_, buildPacket_eq maxAlloc s v hs0 hsmax⟩

theorem buildPacket_id_seq_witness :
    65535 < 65536 ∧
    buildPacket 281474976710656 32 65535
      = some ([8, 0, 247, 255, 255, 255, 255, 255] ++ List.replicate 32 0) ∧
    (∃ (b4 b5 b6 b7 : Byte),
      ([8, 0, 247, 255, 255, 255, 255, 255] ++ List.replicate 32 (0 : Byte))[4]? = some b4 ∧
      ([8, 0, 247, 255, 255, 255, 255, 255] ++ List.replicate 32 (0 : Byte))[5]? = some b5 ∧
      ([8, 0, 247, 255, 255, 255, 255, 255] ++ List.replicate 32 (0 : Byte))[6]? = some b6 ∧
      ([8, 0, 247, 255, 255, 255, 255, 255] ++ List.replicate 32 (0 : Byte))[7]? = some b7 ∧
      b4.val * 256 + b5.val = 65535 ∧ b6.val * 256 + b7.val = 65535) ∧
    (∀ s : Int, 0 ≤ s → s + 8 ≤ ((281474976710656 : Nat) : Int) →
      ∃ q, buildPacket 281474976710656 s 65535 = some q) :=
  ⟨by decide, (buildPacket_eq 281474976710656 32 65535 (by decide) (by decide)).trans (by decide),
    buildPacket_id_seq 281474976710656 65535 32
      ([8, 0, 247, 255, 255, 255, 255, 255] ++ List.replicate 32 0) (by decide)
      ((buildPacket_eq 281474976710656 32 65535 (by decide) (by decide)).trans (by decide))⟩

/-- C5. `checkSum` of the empty buffer is `0xFFFF`. -/
theorem checkSum_empty : checkSum [] = some 0xFFFF := by
  rw [checkSum_eq]; decide

/-- C6. `checkSum [0x00, 0x01]` is `0xFFFE`, the sixteen-bit complement of the
word `0x0001`. -/
theorem checkSum_word_one :
    checkSum [0x00, 0x01] = some 0xFFFE ∧ 0xFFFE = 0xFFFF - (0x00 * 256 + 0x01) := by
  refine ⟨?_, by decide⟩
  rw [checkSum_eq]; decide

/-- C7. Odd-length rule: for every even-length buffer `b` and byte `x`, the
leftover byte is added as it stands, so `checkSum (b ++ [x])` equals
`checkSum (b ++ [0x00, x])`. -/
theorem checkSum_odd_byte_low (b : List Byte) (x : Byte) (heven : b.length % 2 = 0) :
    checkSum (b ++ [x]) = checkSum (b ++ [0x00, x]) := by
  rw [checkSum_eq, checkSum_eq, accSum_append_even b _ heven,
    accSum_append_even b _ heven]
  simp [accSum]

theorem checkSum_odd_byte_low_witness :
    ([8, 0, 0, 0] : List Byte).length % 2 = 0 ∧
    checkSum ([8, 0, 0, 0] ++ [200]) = checkSum ([8, 0, 0, 0] ++ [0x00, 200]) :=
  ⟨by decide, checkSum_odd_byte_low [8, 0, 0, 0] 200 (by decide)⟩

/-- C8. Reference value: for every even-length buffer of at most 131072 bytes,
with `S` the exact sum of its big-endian sixteen-bit words, `S` is below
`2^32` and `checkSum` returns `0xFFFF` when `S = 0` and
`0xFFFF - (((S - 1) mod 65535) + 1)` otherwise. -/
theorem checkSum_reference_value (d : List Byte) (heven : d.length % 2 = 0)
    (hlen : d.length ≤ 131072) :
    (wordsPadded d).sum < 4294967296 ∧
    checkSum d = some (if (wordsPadded d).sum = 0 then 0xFFFF
      else 0xFFFF - ((((wordsPadded d).sum - 1) % 65535) + 1)) := by
  have hacc := accSum_eq_wordsPadded_sum d heven
  have hle := accSum_le d
  have hlt : (wordsPadded d).sum < 4294967296 := by omega
  refine ⟨hlt, ?_⟩
  rw [checkSum_eq, hacc, Nat.mod_eq_of_lt hlt]
  unfold onesFold
  split <;> rfl

theorem checkSum_reference_value_witness :
    ([0x12, 0x34, 0xFF, 0xFF] : List Byte).length % 2 = 0 ∧
    ([0x12, 0x34, 0xFF, 0xFF] : List Byte).length ≤ 131072 ∧
    (wordsPadded [0x12, 0x34, 0xFF, 0xFF]).sum < 4294967296 ∧
    checkSum [0x12, 0x34, 0xFF, 0xFF]
      = some (if (wordsPadded [0x12, 0x34, 0xFF, 0xFF]).sum = 0 then 0xFFFF
          else 0xFFFF - ((((wordsPadded [0x12, 0x34, 0xFF, 0xFF]).sum - 1) % 65535) + 1)) :=
  ⟨by decide, by decide,
    checkSum_reference_value [0x12, 0x34, 0xFF, 0xFF] (by decide) (by decide)⟩

/-- C9, refuted as stated. With the allocation limit `2^48` of 64-bit Linux,
the default payload size 32, loop index 0, a
successful write and a successful read that delivers 24 bytes (a 20-byte IP
header and 4 more bytes), the iteration is not classified as a failure: it
prints the reply line, with byte count `24 - 28 = -4`, and sleeps. -/
theorem truncated_reply_counterexample :
    (connRead (List.replicate 1024 0)
      [69, 0, 0, 24, 0, 0, 0, 0, 64, 1, 0, 0, 127, 0, 0, 1, 127, 0, 0, 1, 0, 0, 255, 255]).1
      = 24 ∧
    loopBody 281474976710656 32 0 ⟨.ok, .ok
      [69, 0, 0, 24, 0, 0, 0, 0, 64, 1, 0, 0, 127, 0, 0, 1, 127, 0, 0, 1, 0, 0, 255, 255], 3⟩
      = some [.write ([8, 0, 247, 255, 0, 0, 0, 0] ++ List.replicate 32 0), .read,
          .reply 127 0 0 1 (-4) 3 64, .sleep] := by
  refine ⟨by decide, ?_⟩
  rw [loopBody_read_ok 281474976710656 32 0 _ 3
    ([8, 0, 247, 255, 0, 0, 0, 0] ++ List.replicate 32 0) 127 0 0 1 64 (by decide)
    ((buildPacket_eq 281474976710656 32 0 (by decide) (by decide)).trans (by decide))
    (by decide) (by decide) (by decide) (by decide) (by decide)]
  decide

/-- C9, amended. For every payload size `size ≥ 0` that the runtime grants
(`size + 8 ≤ maxAlloc`, and `1024 ≤ maxAlloc` for the receive buffer), every
loop index and every successful read that returns `n < 28` bytes after a
successful write,
the iteration is not classified as a failure: it logs no error, prints one
reply line whose byte count is the negative number `n - 28`, and then
sleeps; the five bytes printed are read inside the 1024-byte receive
buffer. -/
theorem truncated_reply_amended (maxAlloc : Nat) (size : Int) (i : Nat)
    (packet : List Byte) (elapsed : Int) (hs : 0 ≤ size)
    (hmax : size + 8 ≤ maxAlloc) (hbuf : 1024 ≤ maxAlloc)
    (hn : (connRead (List.replicate 1024 0) packet).1 < 28) :
    ∃ (data : List Byte) (a b c d ttl : Byte) (bytes : Int),
      loopBody maxAlloc size i ⟨.ok, .ok packet, elapsed⟩
        = some [.write data, .read, .reply a b c d bytes elapsed ttl, .sleep] ∧
      bytes = (connRead (List.replicate 1024 0) packet).1 - 28 ∧ bytes < 0 ∧
      (connRead (List.replicate 1024 0) packet).2[12]? = some a ∧
      (connRead (List.replicate 1024 0) packet).2[13]? = some b ∧
      (connRead (List.replicate 1024 0) packet).2[14]? = some c ∧
      (connRead (List.replicate 1024 0) packet).2[15]? = some d ∧
      (connRead (List.replicate 1024 0) packet).2[8]? = some ttl := by
  obtain ⟨a, b, c, d, ttl, ha, hb, hc, hd, httl⟩ := connRead_bytes packet
  exact ⟨_, a, b, c, d, ttl, _,
    loopBody_read_ok maxAlloc size i packet elapsed _ a b c d ttl hbuf
      (buildPacket_eq maxAlloc size i hs hmax) ha hb hc hd httl,
    rfl, by omega, ha, hb, hc, hd, httl⟩

theorem truncated_reply_amended_witness :
    (0 : Int) ≤ 32 ∧ (32 : Int) + 8 ≤ ((281474976710656 : Nat) : Int) ∧ 1024 ≤ 281474976710656 ∧
    (connRead (List.replicate 1024 0) [69, 0, 0, 20, 0, 0, 0, 0, 64, 1]).1 < 28 ∧
    ∃ (data : List Byte) (a b c d ttl : Byte) (bytes : Int),
      loopBody 281474976710656 32 1 ⟨.ok, .ok [69, 0, 0, 20, 0, 0, 0, 0, 64, 1], 5⟩
        = some [.write data, .read, .reply a b c d bytes 5 ttl, .sleep] ∧
      bytes = (connRead (List.replicate 1024 0) [69, 0, 0, 20, 0, 0, 0, 0, 64, 1]).1 - 28 ∧
      bytes < 0 ∧
      (connRead (List.replicate 1024 0) [69, 0, 0, 20, 0, 0, 0, 0, 64, 1]).2[12]? = some a ∧
      (connRead (List.replicate 1024 0) [69, 0, 0, 20, 0, 0, 0, 0, 64, 1]).2[13]? = some b ∧
      (connRead (List.replicate 1024 0) [69, 0, 0, 20, 0, 0, 0, 0, 64, 1]).2[14]? = some c ∧
      (connRead (List.replicate 1024 0) [69, 0, 0, 20, 0, 0, 0, 0, 64, 1]).2[15]? = some d ∧
      (connRead (List.replicate 1024 0) [69, 0, 0, 20, 0, 0, 0, 0, 64, 1]).2[8]? = some ttl :=
  ⟨by decide, by decide, by decide, by decide,
    truncated_reply_amended 281474976710656 32 1 [69, 0, 0, 20, 0, 0, 0, 0, 64, 1] 5
      (by decide) (by decide) (by decide) (by decide)⟩

/-- C10. Reply decoding: for every payload size `size ≥ 0` that the runtime
grants (`size + 8 ≤ maxAlloc`, and `1024 ≤ maxAlloc` for the receive buffer),
every loop index and every successful read of `n` bytes into the receive buffer `buf` after a
successful write, the reply line reports the octets `buf[12]`, `buf[13]`,
`buf[14]`, `buf[15]`, the TTL `buf[8]` and the byte count `n - 28`; a reply
of 28 bytes is reported with byte count `0`. -/
theorem loopBody_reply (maxAlloc : Nat) (size : Int) (i : Nat) (packet : List Byte)
    (elapsed : Int) (hs : 0 ≤ size) (hmax : size + 8 ≤ maxAlloc)
    (hbuf : 1024 ≤ maxAlloc) :
    ∃ (data : List Byte) (a b c d ttl : Byte),
      (connRead (List.replicate 1024 0) packet).2[12]? = some a ∧
      (connRead (List.replicate 1024 0) packet).2[13]? = some b ∧
      (connRead (List.replicate 1024 0) packet).2[14]? = some c ∧
      (connRead (List.replicate 1024 0) packet).2[15]? = some d ∧
      (connRead (List.replicate 1024 0) packet).2[8]? = some ttl ∧
      loopBody maxAlloc size i ⟨.ok, .ok packet, elapsed⟩
        = some [.write data, .read,
            .reply a b c d ((connRead (List.replicate 1024 0) packet).1 - 28) elapsed ttl,
            .sleep] ∧
      (packet.length = 28 →
        loopBody maxAlloc size i ⟨.ok, .ok packet, elapsed⟩
          = some [.write data, .read, .reply a b c d 0 elapsed ttl, .sleep]) := by
  obtain ⟨a, b, c, d, ttl, ha, hb, hc, hd, httl⟩ := connRead_bytes packet
  have hbody := loopBody_read_ok maxAlloc size i packet elapsed _ a b c d ttl hbuf
    (buildPacket_eq maxAlloc size i hs hmax) ha hb hc hd httl
  refine ⟨_, a, b, c, d, ttl, ha, hb, hc, hd, httl, hbody, ?_⟩
  intro h28
  have hcount : (connRead (List.replicate 1024 0) packet).1 - 28 = 0 := by
    rw [connRead_count, List.length_replicate, h28]
    decide
  rw [hbody, hcount]

theorem loopBody_reply_witness :
    (0 : Int) ≤ 32 ∧ (32 : Int) + 8 ≤ ((281474976710656 : Nat) : Int) ∧ 1024 ≤ 281474976710656 ∧
    ∃ (data : List Byte) (a b c d ttl : Byte),
      (connRead (List.replicate 1024 0) (List.replicate 28 7)).2[12]? = some a ∧
      (connRead (List.replicate 1024 0) (List.replicate 28 7)).2[13]? = some b ∧
      (connRead (List.replicate 1024 0) (List.replicate 28 7)).2[14]? = some c ∧
      (connRead (List.replicate 1024 0) (List.replicate 28 7)).2[15]? = some d ∧
      (connRead (List.replicate 1024 0) (List.replicate 28 7)).2[8]? = some ttl ∧
      loopBody 281474976710656 32 2 ⟨.ok, .ok (List.replicate 28 7), 9⟩
        = some [.write data, .read,
            .reply a b c d
              ((connRead (List.replicate 1024 0) (List.replicate 28 7)).1 - 28) 9 ttl,
            .sleep] ∧
      ((List.replicate 28 (7 : Byte)).length = 28 →
        loopBody 281474976710656 32 2 ⟨.ok, .ok (List.replicate 28 7), 9⟩
          = some [.write data, .read, .reply a b c d 0 9 ttl, .sleep]) :=
  ⟨by decide, by decide, by decide,
    loopBody_reply 281474976710656 32 2 (List.replicate 28 7) 9 (by decide) (by decide) (by decide)⟩

/-- C11, refuted as stated. With one probe requested, a network on which every
write and read would succeed, and the payload size `-1` (`-l -1`), the first
iteration panics in `make` at line 68 before any write: the run makes no
write attempt and produces no outcome record. The same happens with the
non-negative size `9223372036854775807` under the allocation limit `2^48`. -/
theorem mainLoop_probes_counterexample :
    mainLoop 281474976710656 (-1) 1 (fun _ => ⟨.ok, .ok [], 0⟩) 0 = none ∧
    mainLoop 281474976710656 9223372036854775807 1 (fun _ => ⟨.ok, .ok [], 0⟩) 0 = none :=
  ⟨mainLoop_panic 281474976710656 (-1) 1 (fun _ => ⟨.ok, .ok [], 0⟩) 0 (by decide)
      (loopBody_none 281474976710656 (-1) 0 _ (buildPacket_none 281474976710656 (-1) 0 (by decide))),
    mainLoop_panic 281474976710656 9223372036854775807 1 (fun _ => ⟨.ok, .ok [], 0⟩) 0 (by decide)
      (loopBody_none 281474976710656 9223372036854775807 0 _
        (buildPacket_none 281474976710656 9223372036854775807 0 (by decide)))⟩

/-- C11, amended. Probe loop count and order: for every request count `N ≥ 0`,
every assignment of per-probe outcomes and every payload size that the
runtime grants (`0 ≤ size`, `size + 8 ≤ maxAlloc`, and `1024 ≤ maxAlloc` for
the receive buffer), the loop runs to its end; it makes exactly `N` write
attempts, the `k`-th of them (from 0) sending the packet built for loop index
`k`; it produces exactly `N` outcome records (reply lines and logged errors);
it attempts as many reads as there are successful writes; and every iteration
starts with its write and contains a read exactly when that write
succeeded. -/
theorem mainLoop_probes (maxAlloc : Nat) (size : Int) (N : Nat) (env : Nat → ProbeEnv)
    (hs : 0 ≤ size) (hmax : size + 8 ≤ maxAlloc) (hbuf : 1024 ≤ maxAlloc) :
    ∃ evs : List Event,
      mainLoop maxAlloc size (N : Int) env 0 = some evs ∧
      (writesOf evs).length = N ∧
      (writesOf evs).map some = (List.range N).map (buildPacket maxAlloc size) ∧
      evs.countP isRecord = N ∧
      evs.countP isRead = (List.range N).countP (fun k => writeOk (env k)) ∧
      ∀ k : Nat, ∃ (data : List Byte) (t : List Event),
        loopBody maxAlloc size k (env k) = some t ∧
        t.head? = some (.write data) ∧
        writesOf t = [data] ∧
        t.countP isRecord = 1 ∧
        (Event.read ∈ t ↔ writeOk (env k) = true) := by
  obtain ⟨evs, hrun, hw, hrec, hread, _, _⟩ :=
    mainLoop_trace maxAlloc size env hs hmax hbuf N 0
  rw [Nat.zero_add] at hrun
  rw [← List.range_eq_range'] at hw hread
  refine ⟨evs, hrun, ?_, hw, hrec, hread, ?_⟩
  · have hlen := congrArg List.length hw
    simpa using hlen
  · intro k
    obtain ⟨data, t, _, ht, hhead, htw, htrec, htread, _, _, _⟩ :=
      loopBody_trace maxAlloc size k (env k) hs hmax hbuf
    refine ⟨data, t, ht, hhead, htw, htrec, ?_⟩
    rw [read_mem_iff, htread]
    cases writeOk (env k) <;> simp

theorem mainLoop_probes_witness :
    (0 : Int) ≤ 32 ∧ (32 : Int) + 8 ≤ ((281474976710656 : Nat) : Int) ∧ 1024 ≤ 281474976710656 ∧
    ∃ evs : List Event,
      mainLoop 281474976710656 32 ((4 : Nat) : Int)
        (fun k => if k = 1 then ⟨.ok, .ok [], 3⟩ else ⟨.err, .err, 0⟩) 0 = some evs ∧
      (writesOf evs).length = 4 ∧
      (writesOf evs).map some = (List.range 4).map (buildPacket 281474976710656 32) ∧
      evs.countP isRecord = 4 ∧
      evs.countP isRead = (List.range 4).countP
        (fun k => writeOk
          ((fun k => if k = 1 then (⟨.ok, .ok [], 3⟩ : ProbeEnv) else ⟨.err, .err, 0⟩) k)) ∧
      ∀ k : Nat, ∃ (data : List Byte) (t : List Event),
        loopBody 281474976710656 32 k
          ((fun k => if k = 1 then (⟨.ok, .ok [], 3⟩ : ProbeEnv) else ⟨.err, .err, 0⟩) k)
          = some t ∧
        t.head? = some (.write data) ∧
        writesOf t = [data] ∧
        t.countP isRecord = 1 ∧
        (Event.read ∈ t ↔ writeOk
          ((fun k => if k = 1 then (⟨.ok, .ok [], 3⟩ : ProbeEnv) else ⟨.err, .err, 0⟩) k)
            = true) :=
  ⟨by decide, by decide, by decide, mainLoop_probes 281474976710656 32 4
    (fun k => if k = 1 then ⟨.ok, .ok [], 3⟩ else ⟨.err, .err, 0⟩)
    (by decide) (by decide) (by decide)⟩

/-- C12, refuted as stated. With the allocation limit `2^48` of 64-bit Linux,
payload size 32 and one probe whose write
succeeds and whose read fails (a timeout), the loop logs the error and ends
without any sleep; the same holds when the write itself fails. -/
theorem sleep_every_probe_counterexample :
    mainLoop 281474976710656 32 1 (fun _ => ⟨.ok, .err, 0⟩) 0
      = some [.write ([8, 0, 247, 255, 0, 0, 0, 0] ++ List.replicate 32 0), .read, .logErr] ∧
    List.countP isSleep
      [.write ([8, 0, 247, 255, 0, 0, 0, 0] ++ List.replicate 32 0), .read, .logErr] = 0 ∧
    mainLoop 281474976710656 32 1 (fun _ => ⟨.err, .err, 0⟩) 0
      = some [.write ([8, 0, 247, 255, 0, 0, 0, 0] ++ List.replicate 32 0), .logErr] ∧
    List.countP isSleep
      [.write ([8, 0, 247, 255, 0, 0, 0, 0] ++ List.replicate 32 0), .logErr] = 0 := by
  have hdata : buildPacket 281474976710656 32 0
      = some ([8, 0, 247, 255, 0, 0, 0, 0] ++ List.replicate 32 0) :=
    (buildPacket_eq 281474976710656 32 0 (by decide) (by decide)).trans (by decide)
  have hmake : make 281474976710656 1024 = some (List.replicate 1024 0) :=
    make_buf 281474976710656 (by decide)
  have hread : loopBody 281474976710656 32 0 ⟨.ok, .err, 0⟩
      = some [.write ([8, 0, 247, 255, 0, 0, 0, 0] ++ List.replicate 32 0), .read, .logErr] := by
    simp only [loopBody, hdata, hmake, Option.bind_eq_bind, Option.some_bind, Option.pure_def]
  have hwrite : loopBody 281474976710656 32 0 ⟨.err, .err, 0⟩
      = some [.write ([8, 0, 247, 255, 0, 0, 0, 0] ++ List.replicate 32 0), .logErr] := by
    simp only [loopBody, hdata, Option.bind_eq_bind, Option.some_bind, Option.pure_def]
  refine ⟨?_, by decide, ?_, by decide⟩
  · exact mainLoop_next 281474976710656 32 1 (fun _ => ⟨.ok, .err, 0⟩) 0 (by decide) _ [] hread
      (mainLoop_done 281474976710656 32 1 _ 1 (by decide))
  · exact mainLoop_next 281474976710656 32 1 (fun _ => ⟨.err, .err, 0⟩) 0 (by decide) _ [] hwrite
      (mainLoop_done 281474976710656 32 1 _ 1 (by decide))

/-- C12, amended. For every request count `N ≥ 0`, every assignment of
per-probe outcomes and every payload size that the runtime grants (`0 ≤ size`,
`size + 8 ≤ maxAlloc`, and `1024 ≤ maxAlloc` for the receive buffer): an
iteration whose write
and read both succeed ends with one sleep, and an iteration that meets a write
error or a read error (a timeout included) logs the error and performs no
sleep; so the run performs exactly as many sleeps as it has successful
probes, the sleeps and the logged errors together number `N`, and the run
performs `N` sleeps when every probe succeeds. -/
theorem sleep_after_success (maxAlloc : Nat) (size : Int) (N : Nat) (env : Nat → ProbeEnv)
    (hs : 0 ≤ size) (hmax : size + 8 ≤ maxAlloc) (hbuf : 1024 ≤ maxAlloc) :
    ∃ evs : List Event,
      mainLoop maxAlloc size (N : Int) env 0 = some evs ∧
      evs.countP isSleep = (List.range N).countP (fun k => succeeds (env k)) ∧
      evs.countP isSleep + evs.countP isLogErr = N ∧
      ((∀ k, succeeds (env k) = true) → evs.countP isSleep = N) ∧
      ∀ k : Nat, ∃ t : List Event,
        loopBody maxAlloc size k (env k) = some t ∧
        t.countP isSleep = (if succeeds (env k) then 1 else 0) ∧
        t.countP isLogErr = (if succeeds (env k) then 0 else 1) ∧
        (succeeds (env k) = true → t.getLast? = some .sleep) := by
  obtain ⟨evs, hrun, _, _, _, hsleep, hsum⟩ :=
    mainLoop_trace maxAlloc size env hs hmax hbuf N 0
  rw [Nat.zero_add] at hrun
  rw [← List.range_eq_range'] at hsleep
  refine ⟨evs, hrun, hsleep, by omega, ?_, ?_⟩
  · intro hall
    rw [hsleep, List.countP_eq_length.mpr (fun k _ => hall k), List.length_range]
  · intro k
    obtain ⟨_, t, _, ht, _, _, _, _, htsleep, htlog, hlast⟩ :=
      loopBody_trace maxAlloc size k (env k) hs hmax hbuf
    exact ⟨t, ht, htsleep, htlog, hlast⟩

theorem sleep_after_success_witness :
    (0 : Int) ≤ 32 ∧ (32 : Int) + 8 ≤ ((281474976710656 : Nat) : Int) ∧ 1024 ≤ 281474976710656 ∧
    ∃ evs : List Event,
      mainLoop 281474976710656 32 ((3 : Nat) : Int)
        (fun k => if k = 1 then ⟨.ok, .ok [], 3⟩ else ⟨.ok, .err, 0⟩) 0 = some evs ∧
      evs.countP isSleep = (List.range 3).countP
        (fun k => succeeds
          ((fun k => if k = 1 then (⟨.ok, .ok [], 3⟩ : ProbeEnv) else ⟨.ok, .err, 0⟩) k)) ∧
      evs.countP isSleep + evs.countP isLogErr = 3 ∧
      ((∀ k, succeeds
          ((fun k => if k = 1 then (⟨.ok, .ok [], 3⟩ : ProbeEnv) else ⟨.ok, .err, 0⟩) k)
            = true) → evs.countP isSleep = 3) ∧
      ∀ k : Nat, ∃ t : List Event,
        loopBody 281474976710656 32 k
          ((fun k => if k = 1 then (⟨.ok, .ok [], 3⟩ : ProbeEnv) else ⟨.ok, .err, 0⟩) k)
          = some t ∧
        t.countP isSleep = (if succeeds
          ((fun k => if k = 1 then (⟨.ok, .ok [], 3⟩ : ProbeEnv) else ⟨.ok, .err, 0⟩) k)
            then 1 else 0) ∧
        t.countP isLogErr = (if succeeds
          ((fun k => if k = 1 then (⟨.ok, .ok [], 3⟩ : ProbeEnv) else ⟨.ok, .err, 0⟩) k)
            then 0 else 1) ∧
        (succeeds
          ((fun k => if k = 1 then (⟨.ok, .ok [], 3⟩ : ProbeEnv) else ⟨.ok, .err, 0⟩) k)
            = true → t.getLast? = some .sleep) :=
  ⟨by decide, by decide, by decide, sleep_after_success 281474976710656 32 3
    (fun k => if k = 1 then ⟨.ok, .ok [], 3⟩ else ⟨.ok, .err, 0⟩)
    (by decide) (by decide) (by decide)⟩

/-- C13. The folding loop of `checkSum` terminates for every `uint32`
accumulator value: its body runs at most twice, the value it leaves is the
accumulator after that many runs of the body, the upper sixteen bits of that
value are zero, and the final `uint16` conversion of its complement is the
sixteen-bit complement of the folded sum, from which the folded sum is
recovered. Two runs of the body are needed for `0xFFFFFFFF`. -/
theorem foldLoop_terminates (x : Nat) (hx : x < 4294967296) :
    foldLoopSteps x ≤ 2 ∧
    Nat.iterate foldBody (foldLoopSteps x) x = foldLoop x ∧
    foldLoop x >>> 16 = 0 ∧
    (0xFFFFFFFF - foldLoop x) % 2 ^ 16 = 0xFFFF - foldLoop x ∧
    0xFFFF - (0xFFFFFFFF - foldLoop x) % 2 ^ 16 = foldLoop x ∧
    foldLoopSteps 0xFFFFFFFF = 2 := by
  have hfold := foldLoop_eq_onesFold x hx
  have hle := onesFold_le x
  rw [← hfold] at hle
  have hhi : foldLoop x >>> 16 = 0 := by
    rw [Nat.shiftRight_eq_div_pow]
    exact Nat.div_eq_of_lt (by norm_num; omega)
  have htwo : foldLoopSteps 0xFFFFFFFF = 2 := by
    rw [foldLoopSteps_step _ (by norm_num), foldBody_eq,
      foldLoopSteps_step _ (by norm_num), foldBody_eq,
      foldLoopSteps_small _ (by norm_num)]
  refine ⟨?_, ?_, hhi, by omega, by omega, htwo⟩
  · by_cases h1 : x < 65536
    · rw [foldLoopSteps_small x h1]; omega
    · rw [foldLoopSteps_step x (by omega)]
      have hb := foldBody_eq x
      have hy : foldBody x = x / 65536 + x % 65536 := by
        rw [hb]; exact Nat.mod_eq_of_lt (by omega)
      by_cases h2 : foldBody x < 65536
      · rw [foldLoopSteps_small _ h2]; omega
      · rw [foldLoopSteps_step _ (by omega)]
        have hb2 := foldBody_eq (foldBody x)
        have hz : foldBody (foldBody x) < 65536 := by
          rw [hb2]
          have := Nat.mod_le (foldBody x / 65536 + foldBody x % 65536) 4294967296
          omega
        rw [foldLoopSteps_small _ hz]
  · by_cases h1 : x < 65536
    · rw [foldLoopSteps_small x h1, foldLoop_small x h1]; rfl
    · rw [foldLoopSteps_step x (by omega), foldLoop_step_body x (by omega)]
      have hb := foldBody_eq x
      have hy : foldBody x = x / 65536 + x % 65536 := by
        rw [hb]; exact Nat.mod_eq_of_lt (by omega)
      by_cases h2 : foldBody x < 65536
      · rw [foldLoopSteps_small _ h2, foldLoop_small _ h2]; rfl
      · rw [foldLoopSteps_step _ (by omega), foldLoop_step_body _ (by omega)]
        have hb2 := foldBody_eq (foldBody x)
        have hz : foldBody (foldBody x) < 65536 := by
          rw [hb2]
          have := Nat.mod_le (foldBody x / 65536 + foldBody x % 65536) 4294967296
          omega
        rw [foldLoopSteps_small _ hz, foldLoop_small _ hz]; rfl

theorem foldLoop_terminates_witness :
    0x1FFFE < 4294967296 ∧
    foldLoopSteps 0x1FFFE ≤ 2 ∧
    Nat.iterate foldBody (foldLoopSteps 0x1FFFE) 0x1FFFE = foldLoop 0x1FFFE ∧
    foldLoop 0x1FFFE >>> 16 = 0 ∧
    (0xFFFFFFFF - foldLoop 0x1FFFE) % 2 ^ 16 = 0xFFFF - foldLoop 0x1FFFE ∧
    0xFFFF - (0xFFFFFFFF - foldLoop 0x1FFFE) % 2 ^ 16 = foldLoop 0x1FFFE ∧
    foldLoopSteps 0xFFFFFFFF = 2 :=
  ⟨by decide, foldLoop_terminates 0x1FFFE (by decide)⟩

/-- C14. `checkSum` is total: on every buffer (empty, of odd or of even
length) the pairing loop reads inside the buffer at every iteration, runs its
body `floor(len/2)` times and exits with `length = len mod 2` and
`index = 2 * floor(len/2)`; when one byte is left over, `data[index]` is
inside the buffer; and `checkSum` returns a sixteen-bit value without a
panic. -/
theorem checkSum_total (data : List Byte) :
    ∃ (s v : Nat),
      pairLoop data data.length 0 0
        = some (data.length % 2, 2 * (data.length / 2), s) ∧
      pairLoopSteps data data.length 0 0 = some (data.length / 2) ∧
      (∀ k, k < data.length / 2 →
        (∃ hi, data[2 * k]? = some hi) ∧ (∃ lo, data[2 * k + 1]? = some lo)) ∧
      (data.length % 2 = 1 → ∃ b, data[2 * (data.length / 2)]? = some b) ∧
      checkSum data = some v ∧ v < 65536 := by
  obtain ⟨s, hp, hn⟩ := pairLoop_exit data [] 0
  simp only [List.nil_append, List.length_nil, Nat.zero_add] at hp hn
  refine ⟨s, _, hp, hn, ?_, ?_, checkSum_eq data, by omega⟩
  · intro k hk
    exact ⟨getElem?_of_lt data (2 * k) (by omega), getElem?_of_lt data (2 * k + 1) (by omega)⟩
  · intro hodd
    exact getElem?_of_lt data (2 * (data.length / 2)) (by omega)

/-- C15. The checksum of a request does not depend on the payload size: for
every even-length buffer `b` and every `k`, `checkSum` of `b` followed by `k`
zero bytes equals `checkSum b`; hence for every loop index `i` and all payload
sizes `s1`, `s2` (even or odd), whenever `main` builds the packets `p1` with
`s1` and `p2` with `s2` (which it does for every size with `0 ≤ size` and
`size + 8 ≤ maxAlloc`), `p1` and `p2` have the same byte 2 and the same
byte 3. -/
theorem checkSum_payload_independent (maxAlloc : Nat) (i : Nat) (s1 s2 : Int)
    (p1 p2 : List Byte) (h1 : buildPacket maxAlloc s1 i = some p1)
    (h2 : buildPacket maxAlloc s2 i = some p2) :
    (∀ (b : List Byte) (k : Nat), b.length % 2 = 0 →
      checkSum (b ++ List.replicate k 0) = checkSum b) ∧
    (∃ (chi clo : Byte),
      p1[2]? = some chi ∧ p2[2]? = some chi ∧
      p1[3]? = some clo ∧ p2[3]? = some clo) ∧
    (∀ s : Int, 0 ≤ s → s + 8 ≤ maxAlloc → ∃ q, buildPacket maxAlloc s i = some q) := by
  obtain ⟨hs1, hm1⟩ := buildPacket_isSome maxAlloc s1 i p1 h1
  obtain ⟨hs2, hm2⟩ := buildPacket_isSome maxAlloc s2 i p2 h2
  have e1 := buildPacket_eq_header maxAlloc s1 i hs1 hm1
  have e2 := buildPacket_eq_header maxAlloc s2 i hs2 hm2
  rw [h1] at e1
  rw [h2] at e2
  have hp1 := Option.some.inj e1
  have hp2 := Option.some.inj e2
  refine ⟨checkSum_append_zeros, ?_, ?_⟩
  · rw [hp1, hp2]
    exact ⟨_, _, rfl, rfl, rfl, rfl⟩
  · intro s hs0 hsmax
    exact ⟨_, buildPacket_eq maxAlloc s i hs0 hsmax⟩

theorem checkSum_payload_independent_witness :
    buildPacket 281474976710656 0 7 = some [8, 0, 247, 241, 0, 7, 0, 7] ∧
    buildPacket 281474976710656 33 7 = some ([8, 0, 247, 241, 0, 7, 0, 7] ++ List.replicate 33 0) ∧
    (∀ (b : List Byte) (k : Nat), b.length % 2 = 0 →
      checkSum (b ++ List.replicate k 0) = checkSum b) ∧
    (∃ (chi clo : Byte),
      ([8, 0, 247, 241, 0, 7, 0, 7] : List Byte)[2]? = some chi ∧
      ([8, 0, 247, 241, 0, 7, 0, 7] ++ List.replicate 33 (0 : Byte))[2]? = some chi ∧
      ([8, 0, 247, 241, 0, 7, 0, 7] : List Byte)[3]? = some clo ∧
      ([8, 0, 247, 241, 0, 7, 0, 7] ++ List.replicate 33 (0 : Byte))[3]? = some clo) ∧
    (∀ s : Int, 0 ≤ s → s + 8 ≤ ((281474976710656 : Nat) : Int) → ∃ q, buildPacket 281474976710656 s 7 = some q) :=
  ⟨(buildPacket_eq 281474976710656 0 7 (by decide) (by decide)).trans (by decide),
    (buildPacket_eq 281474976710656 33 7 (by decide) (by decide)).trans (by decide),
    checkSum_payload_independent 281474976710656 7 0 33 [8, 0, 247, 241, 0, 7, 0, 7]
      ([8, 0, 247, 241, 0, 7, 0, 7] ++ List.replicate 33 0)
      ((buildPacket_eq 281474976710656 0 7 (by decide) (by decide)).trans (by decide))
      ((buildPacket_eq 281474976710656 33 7 (by decide) (by decide)).trans (by decide))⟩

end Ping
